import Mathlib

/-!
Shallow embedding of the feed-forward classifier repository
(`submission/model.py`).  Feature tensors are lists of rows of rationals,
labels are lists of integers (torch LongTensor values).  Real-valued
computations of the source (cross-entropy via exp/log, standard deviation
via sqrt) are embedded over the reals; everything else stays executable
over the rationals.  Python's true division raising ZeroDivisionError on a
zero divisor is embedded as an Option-valued computation.
-/

namespace FFNN

abbrev Mat := List (List ℚ)

abbrev Labels := List ℤ

abbrev Batch := Mat × Labels

/-- Dot product of a weight row with an input vector. -/
def dot (w x : List ℚ) : ℚ := (List.zipWith (fun a b => a * b) w x).sum

/-- One `nn.Linear` layer: a weight matrix and a bias vector. -/
structure Linear where
  weight : Mat
  bias : List ℚ

/-- Well-formedness of a linear layer for input dimension `din` and output
dimension `dout`. -/
def Linear.wf (l : Linear) (din dout : ℕ) : Prop :=
  l.weight.length = dout ∧ (∀ r ∈ l.weight, r.length = din) ∧ l.bias.length = dout

/-- Applying a linear layer to one input row. -/
def Linear.apply (l : Linear) (x : List ℚ) : List ℚ :=
  List.zipWith (fun w b => dot w x + b) l.weight l.bias

/-- `nn.ReLU` applied to one row. -/
def relu (x : List ℚ) : List ℚ := x.map (fun v => max v 0)

/-- Parameters of the `LitSimpleClassifier` network:
`Linear(2,32), ReLU, Linear(32,64), ReLU, Linear(64,4)`. -/
structure SimpleNet where
  fc1 : Linear
  fc2 : Linear
  fc3 : Linear

def SimpleNet.wf (n : SimpleNet) : Prop :=
  n.fc1.wf 2 32 ∧ n.fc2.wf 32 64 ∧ n.fc3.wf 64 4

/-- Forward pass of the simple network on one row: ReLU after each hidden
affine layer, no activation on the output layer. -/
def SimpleNet.forwardRow (n : SimpleNet) (x : List ℚ) : List ℚ :=
  n.fc3.apply (relu (n.fc2.apply (relu (n.fc1.apply x))))

/-- Parameters of the `LitDigitsClassifier` network:
`Linear(64,512), ReLU, Linear(512,128), ReLU, Linear(128,64), ReLU, Linear(64,10)`. -/
structure DigitsNet where
  fc1 : Linear
  fc2 : Linear
  fc3 : Linear
  fc4 : Linear

def DigitsNet.wf (n : DigitsNet) : Prop :=
  n.fc1.wf 64 512 ∧ n.fc2.wf 512 128 ∧ n.fc3.wf 128 64 ∧ n.fc4.wf 64 10

/-- Forward pass of the digits network on one row: ReLU after each hidden
affine layer, no activation on the output layer. -/
def DigitsNet.forwardRow (n : DigitsNet) (x : List ℚ) : List ℚ :=
  n.fc4.apply (relu (n.fc3.apply (relu (n.fc2.apply (relu (n.fc1.apply x))))))

/-- `self.model(x)`: the network applied row-wise to a batch of features.
The generic base class has `model = nn.Sequential()`, whose row function is
the identity. -/
def forward (f : List ℚ → List ℚ) (x : Mat) : Mat := x.map f

/-- `torch.argmax` on one row: index of the first maximal entry (0 for an
empty row). -/
def argmax (l : List ℚ) : ℕ :=
  (List.range l.length).foldl (fun best i => if l.getD best 0 < l.getD i 0 then i else best) 0

/-- `(y_pred_labels == y).sum().item()`: how many predicted labels agree
with the given labels. -/
def countMatches (p : List ℕ) (y : Labels) : ℕ :=
  (List.zipWith (fun (a : ℕ) (b : ℤ) => if (a : ℤ) = b then 1 else 0) p y).sum

/-- `acc = correct_predictions / total_predictions` with
`total_predictions = len(y)`.  Python's division raises ZeroDivisionError
when `len(y) = 0`, embedded as `none`. -/
def accuracy (p : List ℕ) (y : Labels) : Option ℚ :=
  if y.length = 0 then none else some ((countMatches p y : ℚ) / (y.length : ℚ))

/-- `nn.CrossEntropyLoss()(y_pred, y)`: mean over the batch of
`log (sum_j exp z_j) - z_c`, the negative log-softmax at the target class. -/
noncomputable def cross_entropy (zs : Mat) (y : Labels) : ℝ :=
  (List.zipWith
    (fun z c =>
      Real.log ((z.map (fun v : ℚ => Real.exp ((v : ℝ)))).sum) - ((z.getD c.toNat 0 : ℚ) : ℝ))
    zs y).sum / (zs.length : ℝ)

/-- Shared body of `training_step` / `validation_step` / `test_step` after
the `x,y = batch` line: forward pass, arg-max labels, accuracy (failing on
an empty batch), cross-entropy loss. -/
noncomputable def step_core (f : List ℚ → List ℚ) (x : Mat) (y : Labels) :
    Option (ℝ × ℚ) :=
  let y_pred := forward f x
  match accuracy (y_pred.map argmax) y with
  | none => none
  | some a => some (cross_entropy y_pred y, a)

/-- Insert into a sorted list of rationals. -/
def insertSorted (a : ℚ) : List ℚ → List ℚ
  | [] => [a]
  | b :: l => if a ≤ b then a :: b :: l else b :: insertSorted a l

/-- Insertion sort on rationals. -/
def sortQ : List ℚ → List ℚ
  | [] => []
  | a :: l => insertSorted a (sortQ l)

/-- `torch.median` of a 1-D tensor: the element at index `(n-1)/2` of the
sorted values (the lower of the two middle values when `n` is even). -/
def medianQ (l : List ℚ) : ℚ := (sortQ l).getD ((l.length - 1) / 2) 0

/-- `t.mean()` of a 1-D tensor. -/
def meanQ (l : List ℚ) : ℚ := l.sum / (l.length : ℚ)

/-- `t.var()` of a 1-D tensor: Bessel-corrected (unbiased) sample variance,
as used by `torch.std`. -/
def varQ (l : List ℚ) : ℚ :=
  ((l.map (fun v => (v - meanQ l) ^ 2)).sum) / ((l.length : ℚ) - 1)

/-- Column `j` of a batch of feature rows. -/
def colOf (x : Mat) (j : ℕ) : List ℚ := x.map (fun r => r.getD j 0)

/-- Map a function of the column index over a row, starting at column `j`.
This embeds the per-column broadcasting of the torch expressions. -/
def mapColsFrom {β : Type} (f : ℕ → ℚ → β) : ℕ → List ℚ → List β
  | _, [] => []
  | j, v :: r => f j v :: mapColsFrom f (j + 1) r

/-- `is_outlier = (x - median) > (threshold * median)` at entry `(i, j)`,
with `threshold = 4` and `median` the per-column median. -/
def is_outlier (x : Mat) (i j : ℕ) : Prop :=
  4 * medianQ (colOf x j) < (x.getD i []).getD j 0 - medianQ (colOf x j)

instance is_outlier_decidable (x : Mat) (i j : ℕ) : Decidable (is_outlier x i j) :=
  inferInstanceAs
    (Decidable (4 * medianQ (colOf x j) < (x.getD i []).getD j 0 - medianQ (colOf x j)))

/-- Per-entry replacement of each outlier by its own column median.  This
is the effect of `x[is_outlier] = median` exactly when the median tensor
broadcasts against the selection, i.e. for single-column inputs (d = 1),
where the single median is written into every selected position.  See
`masked_fill` for the general semantics of the masked assignment. -/
def clip (x : Mat) : Mat :=
  x.map (fun row =>
    mapColsFrom
      (fun j v =>
        if 4 * medianQ (colOf x j) < v - medianQ (colOf x j)
        then medianQ (colOf x j) else v)
      0 row)

/-- The number of columns d of the feature tensor (the length of its
rows; tensors are rectangular). -/
def numCols (x : Mat) : ℕ := (x.headD []).length

/-- One row of the positional masked assignment: `j` is the column index,
`t` the number of outlier positions already seen in row-major order.  The
t-th selected position receives `median[t]`, the median of column `t` —
not necessarily the median of its own column.  Returns the assigned row
and the updated outlier count. -/
def assignRow (x : Mat) : ℕ → ℕ → List ℚ → List ℚ × ℕ
  | _, t, [] => ([], t)
  | j, t, v :: r =>
    if 4 * medianQ (colOf x j) < v - medianQ (colOf x j) then
      (medianQ (colOf x t) :: (assignRow x (j + 1) (t + 1) r).1,
       (assignRow x (j + 1) (t + 1) r).2)
    else
      (v :: (assignRow x (j + 1) t r).1, (assignRow x (j + 1) t r).2)

/-- The positional masked assignment over all rows in row-major order,
threading the outlier counter; also yields the total outlier count. -/
def assignRows (x : Mat) : ℕ → List (List ℚ) → Mat × ℕ
  | t, [] => ([], t)
  | t, row :: rest =>
    ((assignRow x 0 t row).1 :: (assignRows x (assignRow x 0 t row).2 rest).1,
     (assignRows x (assignRow x 0 t row).2 rest).2)

/-- The number k of entries selected by `is_outlier`. -/
def numOutliers (x : Mat) : ℕ := (assignRows x 0 x).2

/-- `x[is_outlier] = median` with `x : (B,d)`, `median : (d,)`: the k
selected positions are flattened in row-major order and the median tensor
must broadcast to shape (k,).  For d = 1 the single median is written into
every selected position (each outlier gets its column median).  For k = d
the t-th selected position in row-major order receives `median[t]`.
Otherwise the assignment raises a shape-mismatch RuntimeError, embedded as
`none`. -/
def masked_fill (x : Mat) : Option Mat :=
  if numCols x = 1 then some (clip x)
  else if numOutliers x = numCols x then some (assignRows x 0 x).1
  else none

/-- `(x - x.mean(dim=0)) / x.std(dim=0)`: per-column standardization by the
column mean and Bessel-corrected standard deviation. -/
noncomputable def standardize_cols (x : Mat) : List (List ℝ) :=
  x.map (fun row =>
    mapColsFrom
      (fun j v =>
        ((v : ℝ) - ((meanQ (colOf x j) : ℚ) : ℝ)) / Real.sqrt ((varQ (colOf x j) : ℚ) : ℝ))
      0 row)

namespace LitGenericClassifier

/-- `LitGenericClassifier.transform_input`: performs the in-place masked
assignment `x[is_outlier] = median` (which raises for mismatched shapes,
embedded as `none`), then standardizes each column of the assigned matrix
and coerces the labels to integer type.  On success the first component is
the returned batch, the second the caller's (mutated) feature tensor. -/
noncomputable def transform_input (b : Batch) : Option ((List (List ℝ) × Labels) × Mat) :=
  (masked_fill b.1).map (fun xc => ((standardize_cols xc, b.2), xc))

/-- The caller's feature tensor after `self.transform_input(batch)` has
run: `none` when the masked assignment raised (the step dies before the
reassignment `x,y = batch`), otherwise the assigned tensor. -/
def batch_after_transform (b : Batch) : Option Mat := masked_fill b.1

/-- `LitGenericClassifier.training_step`: calls the transform (whose
returned value is discarded by the reassignment `x,y = batch`, but whose
in-place masked assignment persists in the batch — or raises), then the
shared step body with the base model `nn.Sequential()`, i.e. the identity
row function. -/
noncomputable def training_step (b : Batch) : Option ℝ :=
  (batch_after_transform b).bind (fun xc => Option.map Prod.fst (step_core id xc b.2))

/-- `LitGenericClassifier.validation_step` (returns loss and accuracy). -/
noncomputable def validation_step (b : Batch) : Option (ℝ × ℚ) :=
  (batch_after_transform b).bind (fun xc => step_core id xc b.2)

/-- `LitGenericClassifier.test_step` (same body as `validation_step`). -/
noncomputable def test_step (b : Batch) : Option (ℝ × ℚ) :=
  (batch_after_transform b).bind (fun xc => step_core id xc b.2)

/-- `LitGenericClassifier.predict`: forward pass then per-row arg-max, with
no preprocessing of `x`. -/
def predict (f : List ℚ → List ℚ) (x : Mat) : List ℕ :=
  (forward f x).map argmax

end LitGenericClassifier

namespace LitSimpleClassifier

/-- `LitSimpleClassifier.transform_input`: returns the batch unmodified
(the body is commented out); no mutation of the caller's features. -/
def transform_input (b : Batch) : Batch × Mat := (b, b.1)

/-- The caller's feature tensor after the simple transform: unchanged. -/
def batch_after_transform (b : Batch) : Mat := b.1

/-- `training_step` as inherited by `LitSimpleClassifier`. -/
noncomputable def training_step (n : SimpleNet) (b : Batch) : Option ℝ :=
  Option.map Prod.fst (step_core n.forwardRow (batch_after_transform b) b.2)

/-- `validation_step` as inherited by `LitSimpleClassifier`. -/
noncomputable def validation_step (n : SimpleNet) (b : Batch) : Option (ℝ × ℚ) :=
  step_core n.forwardRow (batch_after_transform b) b.2

/-- `test_step` as inherited by `LitSimpleClassifier`. -/
noncomputable def test_step (n : SimpleNet) (b : Batch) : Option (ℝ × ℚ) :=
  step_core n.forwardRow (batch_after_transform b) b.2

end LitSimpleClassifier

namespace LitDigitsClassifier

/-- `LitDigitsClassifier.transform_input`:
`x = (x - x.mean()) / x.std()` with the single global mean and standard
deviation of the whole feature tensor, labels coerced to long.  The
second component is the caller's feature tensor after the call: unchanged,
since fresh tensors are created. -/
noncomputable def transform_input (b : Batch) : (List (List ℝ) × Labels) × Mat :=
  ((b.1.map (List.map (fun v : ℚ =>
      ((v : ℝ) - ((meanQ b.1.flatten : ℚ) : ℝ)) / Real.sqrt ((varQ b.1.flatten : ℚ) : ℝ))),
    b.2), b.1)

/-- The caller's feature tensor after the digits transform: unchanged. -/
def batch_after_transform (b : Batch) : Mat := b.1

/-- `training_step` as inherited by `LitDigitsClassifier`. -/
noncomputable def training_step (n : DigitsNet) (b : Batch) : Option ℝ :=
  Option.map Prod.fst (step_core n.forwardRow (batch_after_transform b) b.2)

/-- `validation_step` as inherited by `LitDigitsClassifier`. -/
noncomputable def validation_step (n : DigitsNet) (b : Batch) : Option (ℝ × ℚ) :=
  step_core n.forwardRow (batch_after_transform b) b.2

/-- `test_step` as inherited by `LitDigitsClassifier`. -/
noncomputable def test_step (n : DigitsNet) (b : Batch) : Option (ℝ × ℚ) :=
  step_core n.forwardRow (batch_after_transform b) b.2

end LitDigitsClassifier

/-- `training_step` with the call to `transform_input` omitted entirely:
the step body computes on the raw batch. -/
noncomputable def training_step_no_transform (f : List ℚ → List ℚ) (b : Batch) : Option ℝ :=
  Option.map Prod.fst (step_core f b.1 b.2)

/-- `validation_step` with the call to `transform_input` omitted. -/
noncomputable def validation_step_no_transform (f : List ℚ → List ℚ) (b : Batch) :
    Option (ℝ × ℚ) :=
  step_core f b.1 b.2

/-- `test_step` with the call to `transform_input` omitted. -/
noncomputable def test_step_no_transform (f : List ℚ → List ℚ) (b : Batch) :
    Option (ℝ × ℚ) :=
  step_core f b.1 b.2

/-- Modelled from the words of claim C2: replace every feature value whose
deviation from the per-column median exceeds the outlier threshold on
either side of the median. -/
def spec_clip_either_side (x : Mat) : Mat :=
  x.map (fun row =>
    mapColsFrom
      (fun j v =>
        if 4 * medianQ (colOf x j) < v - medianQ (colOf x j) ∨
           4 * medianQ (colOf x j) < medianQ (colOf x j) - v
        then medianQ (colOf x j) else v)
      0 row)

/-- Modelled from the words of claim C2: two-sided outlier clipping followed
by per-column standardization, labels coerced to integer type. -/
noncomputable def spec_transform_either_side (b : Batch) : List (List ℝ) × Labels :=
  (standardize_cols (spec_clip_either_side b.1), b.2)

/-- A linear layer with all parameters zero, of the given dimensions. -/
def zeroLinear (din dout : ℕ) : Linear :=
  ⟨List.replicate dout (List.replicate din 0), List.replicate dout 0⟩

/-- The simple network with all parameters zero. -/
def simpleNet0 : SimpleNet := ⟨zeroLinear 2 32, zeroLinear 32 64, zeroLinear 64 4⟩

/-- The digits network with all parameters zero. -/
def digitsNet0 : DigitsNet :=
  ⟨zeroLinear 64 512, zeroLinear 512 128, zeroLinear 128 64, zeroLinear 64 10⟩

/-! ### Helper lemmas -/

theorem mapColsFrom_length {β : Type} (f : ℕ → ℚ → β) :
    ∀ (j : ℕ) (l : List ℚ), (mapColsFrom f j l).length = l.length := by
  intro j l
  induction l generalizing j with
  | nil => rfl
  | cons v r ih => simp [mapColsFrom, ih]

theorem mapColsFrom_getD {β : Type} (f : ℕ → ℚ → β) (d : β) :
    ∀ (j k : ℕ) (l : List ℚ), k < l.length →
      (mapColsFrom f j l).getD k d = f (j + k) (l.getD k 0) := by
  intro j k l
  induction l generalizing j k with
  | nil => intro h; simp at h
  | cons v r ih =>
    intro h
    cases k with
    | zero => simp [mapColsFrom]
    | succ k =>
      have hk : k < r.length := by simpa using h
      have := ih (j + 1) k hk
      simpa [mapColsFrom, Nat.add_assoc, Nat.add_comm 1 k] using this

theorem relu_length (x : List ℚ) : (relu x).length = x.length := by
  simp [relu]

theorem Linear.apply_length {l : Linear} {din dout : ℕ} (h : l.wf din dout)
    (x : List ℚ) : (l.apply x).length = dout := by
  obtain ⟨hw, _, hb⟩ := h
  simp [Linear.apply, hw, hb]

theorem simple_forwardRow_length {n : SimpleNet} (h : n.wf) (x : List ℚ) :
    (n.forwardRow x).length = 4 := by
  obtain ⟨h1, h2, h3⟩ := h
  simp [SimpleNet.forwardRow, Linear.apply_length h3]

theorem digits_forwardRow_length {n : DigitsNet} (h : n.wf) (x : List ℚ) :
    (n.forwardRow x).length = 10 := by
  obtain ⟨h1, h2, h3, h4⟩ := h
  simp [DigitsNet.forwardRow, Linear.apply_length h4]

theorem foldl_choice_lt {n : ℕ} (cond : ℕ → ℕ → Bool) :
    ∀ (is : List ℕ) (b : ℕ), b < n → (∀ i ∈ is, i < n) →
      (is.foldl (fun best i => if cond best i then i else best) b) < n := by
  intro is
  induction is with
  | nil => intro b hb _; simpa using hb
  | cons i is ih =>
    intro b hb hall
    have hi : i < n := hall i (by simp)
    have hrest : ∀ k ∈ is, k < n := fun k hk => hall k (by simp [hk])
    simp only [List.foldl_cons]
    cases hc : cond b i
    · rw [if_neg (by simp [hc])]
      exact ih b hb hrest
    · rw [if_pos (by simp [hc])]
      exact ih i hi hrest

theorem argmax_lt_length {l : List ℚ} (h : l ≠ []) : argmax l < l.length := by
  have hlen : 0 < l.length := List.length_pos.mpr h
  unfold argmax
  have := foldl_choice_lt (n := l.length)
    (fun best i => decide (l.getD best 0 < l.getD i 0)) (List.range l.length) 0 hlen
    (by intro i hi; simpa using hi)
  simpa using this

theorem countMatches_le_length (p : List ℕ) (y : Labels) :
    countMatches p y ≤ y.length := by
  induction p generalizing y with
  | nil => simp [countMatches]
  | cons a p ih =>
    cases y with
    | nil => simp [countMatches]
    | cons b y =>
      have hy := ih y
      simp only [countMatches] at hy ⊢
      simp only [List.zipWith_cons_cons, List.sum_cons, List.length_cons]
      by_cases hab : (a : ℤ) = b
      · rw [if_pos hab]; omega
      · rw [if_neg hab]; omega

theorem countMatches_eq_length {p : List ℕ} {y : Labels}
    (h : p.map Int.ofNat = y) : countMatches p y = y.length := by
  subst h
  induction p with
  | nil => rfl
  | cons a p ih =>
    simp only [countMatches, List.map_cons, List.zipWith_cons_cons, List.sum_cons,
      List.length_cons] at ih ⊢
    simp only [Int.ofNat_eq_coe] at ih ⊢
    rw [if_pos trivial]
    omega

theorem step_core_map_snd (f : List ℚ → List ℚ) (x : Mat) (y : Labels) :
    (step_core f x y).map Prod.snd = accuracy ((forward f x).map argmax) y := by
  simp only [step_core]
  cases h : accuracy (List.map argmax (forward f x)) y <;> simp [h]

theorem zeroLinear_wf (din dout : ℕ) : (zeroLinear din dout).wf din dout := by
  refine ⟨by simp [zeroLinear], ?_, by simp [zeroLinear]⟩
  intro r hr
  rw [List.eq_of_mem_replicate hr]
  simp

theorem simpleNet0_wf : simpleNet0.wf :=
  ⟨zeroLinear_wf 2 32, zeroLinear_wf 32 64, zeroLinear_wf 64 4⟩

theorem digitsNet0_wf : digitsNet0.wf :=
  ⟨zeroLinear_wf 64 512, zeroLinear_wf 512 128, zeroLinear_wf 128 64, zeroLinear_wf 64 10⟩

theorem argmax_pair (a b : ℚ) : argmax [a, b] = if a < b then 1 else 0 := by
  norm_num [argmax, show List.range 2 = [0, 1] from by decide]

theorem getD_map_rows {β : Type} (F : List ℚ → List β) (x : Mat) (i : ℕ)
    (hi : i < x.length) : (x.map F).getD i [] = F (x.getD i []) := by
  rw [List.getD_eq_getElem (x.map F) [] (by simpa using hi), List.getElem_map,
    List.getD_eq_getElem x [] hi]

theorem clip_entry (x : Mat) (i j : ℕ) (hi : i < x.length)
    (hj : j < (x.getD i []).length) :
    ((clip x).getD i []).getD j 0 =
      if 4 * medianQ (colOf x j) < (x.getD i []).getD j 0 - medianQ (colOf x j)
      then medianQ (colOf x j) else (x.getD i []).getD j 0 := by
  unfold clip
  rw [getD_map_rows _ x i hi, mapColsFrom_getD _ _ 0 j _ hj]
  simp

theorem clip_length (x : Mat) : (clip x).length = x.length := by
  simp [clip]

theorem clip_row_length (x : Mat) (i : ℕ) (hi : i < x.length) :
    ((clip x).getD i []).length = (x.getD i []).length := by
  unfold clip
  rw [getD_map_rows _ x i hi, mapColsFrom_length]

theorem standardize_cols_entry (x : Mat) (i j : ℕ) (hi : i < x.length)
    (hj : j < (x.getD i []).length) :
    ((standardize_cols x).getD i []).getD j 0 =
      ((((x.getD i []).getD j 0 : ℚ) : ℝ) - ((meanQ (colOf x j) : ℚ) : ℝ)) /
        Real.sqrt ((varQ (colOf x j) : ℚ) : ℝ) := by
  unfold standardize_cols
  rw [getD_map_rows _ x i hi, mapColsFrom_getD _ _ 0 j _ hj]
  simp

theorem masked_fill_single_col {x : Mat} (hrect : ∀ r ∈ x, r.length = 1)
    (hx : x ≠ []) : masked_fill x = some (clip x) := by
  have h1 : numCols x = 1 := by
    cases x with
    | nil => exact absurd rfl hx
    | cons r rest => simpa [numCols] using hrect r (by simp)
  unfold masked_fill
  rw [if_pos h1]

/-- The shape-mismatch error path of the masked assignment: here d = 2 but
only one entry is selected, so the (2,)-median cannot broadcast to the
(1,)-selection and the program raises without mutating. -/
theorem masked_fill_shape_mismatch : masked_fill [[1, 2], [10, 5]] = none := by
  norm_num [masked_fill, numCols, numOutliers, assignRows, assignRow, medianQ,
    sortQ, insertSorted, colOf]

/-- The positional branch of the masked assignment: with two selected
entries and d = 2, position (0,1) receives column 0's median 1 and
position (1,0) receives column 1's median 10 — not their own columns'
medians. -/
theorem masked_fill_positional :
    masked_fill [[1, 90], [50, 10], [1, 10], [1, 10]] =
      some [[1, 1], [10, 10], [1, 10], [1, 10]] := by
  norm_num [masked_fill, numCols, numOutliers, assignRows, assignRow, medianQ,
    sortQ, insertSorted, colOf]

theorem pos_div_sqrt_ne_neg_div_sqrt {a b c d : ℝ} (ha : 0 < a) (hb : 0 < b)
    (hc : c < 0) (hd : 0 < d) : a / Real.sqrt b ≠ c / Real.sqrt d := by
  intro h
  have h1 : 0 < a / Real.sqrt b := div_pos ha (Real.sqrt_pos.mpr hb)
  have h2 : c / Real.sqrt d < 0 := div_neg_of_neg_of_pos hc (Real.sqrt_pos.mpr hd)
  rw [h] at h1
  linarith

theorem getD_map_val {β : Type} (g : ℚ → β) (d : β) (l : List ℚ) (j : ℕ)
    (hj : j < l.length) : (l.map g).getD j d = g (l.getD j 0) := by
  rw [List.getD_eq_getElem _ _ (by simpa using hj), List.getElem_map,
    List.getD_eq_getElem l 0 hj]

theorem predict_spec (f : List ℚ → List ℚ) (C : ℕ) (hC : 0 < C)
    (hf : ∀ r, (f r).length = C) (x : Mat) :
    (LitGenericClassifier.predict f x).length = x.length ∧
    ∀ i, i < x.length →
      (LitGenericClassifier.predict f x).getD i 0 = argmax ((forward f x).getD i []) ∧
      (LitGenericClassifier.predict f x).getD i 0 < C := by
  constructor
  · simp [LitGenericClassifier.predict, forward]
  · intro i hi
    have hi2 : i < (forward f x).length := by simpa [forward] using hi
    have hfor : (forward f x).getD i [] = f (x.getD i []) := getD_map_rows f x i hi
    have hpred : (LitGenericClassifier.predict f x).getD i 0 = argmax (f (x.getD i [])) := by
      unfold LitGenericClassifier.predict
      rw [List.getD_eq_getElem _ _ (by simpa [forward] using hi), List.getElem_map,
        ← List.getD_eq_getElem (forward f x) [] hi2, hfor]
    refine ⟨by rw [hpred, hfor], ?_⟩
    rw [hpred]
    have hne : f (x.getD i []) ≠ [] := by
      intro hnil
      have hlen := hf (x.getD i [])
      rw [hnil] at hlen
      simp at hlen
      omega
    have harg := argmax_lt_length hne
    rwa [hf] at harg

theorem ce_term_nonneg (z : List ℚ) (c : ℤ) (hc : c.toNat < z.length) :
    ((z.getD c.toNat 0 : ℚ) : ℝ) ≤ Real.log ((z.map (fun v : ℚ => Real.exp ((v : ℝ)))).sum) := by
  have hmem : Real.exp ((z.getD c.toNat 0 : ℚ) : ℝ) ∈
      z.map (fun v : ℚ => Real.exp ((v : ℝ))) := by
    rw [List.getD_eq_getElem z 0 hc]
    exact List.mem_map.mpr ⟨z.get ⟨c.toNat, hc⟩, List.getElem_mem hc, rfl⟩
  have hnn : ∀ t ∈ z.map (fun v : ℚ => Real.exp ((v : ℝ))), 0 ≤ t := by
    intro t ht
    obtain ⟨v, _, rfl⟩ := List.mem_map.mp ht
    exact (Real.exp_pos _).le
  have hle := List.single_le_sum hnn _ hmem
  calc ((z.getD c.toNat 0 : ℚ) : ℝ)
      = Real.log (Real.exp ((z.getD c.toNat 0 : ℚ) : ℝ)) := (Real.log_exp _).symm
    _ ≤ Real.log ((z.map (fun v : ℚ => Real.exp ((v : ℝ)))).sum) :=
        Real.log_le_log (Real.exp_pos _) hle

theorem ce_sum_nonneg (C : ℕ) :
    ∀ (zs : Mat) (y : Labels), (∀ z ∈ zs, z.length = C) → (∀ c ∈ y, c.toNat < C) →
      0 ≤ (List.zipWith (fun z (c : ℤ) =>
        Real.log ((z.map (fun v : ℚ => Real.exp ((v : ℝ)))).sum) -
          ((z.getD c.toNat 0 : ℚ) : ℝ)) zs y).sum := by
  intro zs
  induction zs with
  | nil =>
    intro y _ _
    simp
  | cons z zs ih =>
    intro y hz hc
    cases y with
    | nil => simp
    | cons c y =>
      simp only [List.zipWith_cons_cons, List.sum_cons]
      have h1 : ((z.getD c.toNat 0 : ℚ) : ℝ) ≤
          Real.log ((z.map (fun v : ℚ => Real.exp ((v : ℝ)))).sum) := by
        apply ce_term_nonneg
        rw [hz z (by simp)]
        exact hc c (by simp)
      have h2 := ih y (fun w hw => hz w (by simp [hw])) (fun d hd => hc d (by simp [hd]))
      linarith

theorem cross_entropy_nonneg (C : ℕ) (zs : Mat) (y : Labels)
    (hz : ∀ z ∈ zs, z.length = C) (hc : ∀ c ∈ y, c.toNat < C) :
    0 ≤ cross_entropy zs y := by
  unfold cross_entropy
  apply div_nonneg
  · exact ce_sum_nonneg C zs y hz hc
  · positivity

theorem step_core_some_loss (f : List ℚ → List ℚ) (C : ℕ) (x : Mat) (y : Labels)
    (hf : ∀ r, (f r).length = C) (hy : y ≠ []) (hv : ∀ c ∈ y, c.toNat < C) :
    ∃ l a, step_core f x y = some (l, a) ∧ 0 ≤ l := by
  have hlen : ¬y.length = 0 := by simpa using (List.length_pos.mpr hy).ne'
  have hacc : accuracy (List.map argmax (forward f x)) y =
      some ((countMatches (List.map argmax (forward f x)) y : ℚ) / (y.length : ℚ)) := by
    unfold accuracy
    rw [if_neg hlen]
  refine ⟨cross_entropy (forward f x) y,
    (countMatches (List.map argmax (forward f x)) y : ℚ) / (y.length : ℚ), ?_, ?_⟩
  · simp only [step_core]
    rw [hacc]
  · apply cross_entropy_nonneg C
    · intro z hz
      obtain ⟨r, _, rfl⟩ := List.mem_map.mp hz
      exact hf r
    · exact hv

/-! ### Claim theorems -/

/-- Claim C4: for every batch, the simple variant's transform_input is the
identity: it returns exactly the batch it was given, and it leaves the
caller's feature tensor untouched. -/
theorem C4_simple_transform_identity (b : Batch) :
    (LitSimpleClassifier.transform_input b).1 = b ∧
    (LitSimpleClassifier.transform_input b).2 = b.1 :=
  ⟨rfl, rfl⟩

/-- Claim C5: on a batch of feature rows, the simple classifier's forward
pass produces one logits row of length 4 per input row (affine stack
2 → 32 → 64 → 4 with ReLU on the hidden layers), and the digits
classifier's forward pass produces one logits row of length 10 per input
row (affine stack 64 → 512 → 128 → 64 → 10 with ReLU on the hidden
layers). -/
theorem C5_forward_shapes (n : SimpleNet) (m : DigitsNet)
    (hn : n.wf) (hm : m.wf) (x z : Mat) :
    (forward n.forwardRow x).length = x.length ∧
    (∀ r ∈ forward n.forwardRow x, r.length = 4) ∧
    (forward m.forwardRow z).length = z.length ∧
    (∀ r ∈ forward m.forwardRow z, r.length = 10) := by
  refine ⟨by simp [forward], ?_, by simp [forward], ?_⟩
  · intro r hr
    obtain ⟨row, _, rfl⟩ := List.mem_map.mp hr
    exact simple_forwardRow_length hn row
  · intro r hr
    obtain ⟨row, _, rfl⟩ := List.mem_map.mp hr
    exact digits_forwardRow_length hm row

theorem C5_forward_shapes_witness :
    simpleNet0.wf ∧ digitsNet0.wf ∧
    ((forward simpleNet0.forwardRow [[1, 2]]).length = ([[1, 2]] : Mat).length ∧
     (∀ r ∈ forward simpleNet0.forwardRow [[1, 2]], r.length = 4) ∧
     (forward digitsNet0.forwardRow [[3]]).length = ([[3]] : Mat).length ∧
     (∀ r ∈ forward digitsNet0.forwardRow [[3]], r.length = 10)) :=
  ⟨simpleNet0_wf, digitsNet0_wf,
   C5_forward_shapes simpleNet0 digitsNet0 simpleNet0_wf digitsNet0_wf [[1, 2]] [[3]]⟩

/-- Claim C8: for an empty batch the accuracy computation divides by
`total_predictions = len(y) = 0` with no guard, so every step function of
every variant fails (returns no result) rather than producing a value. -/
theorem C8_empty_batch (n : SimpleNet) (m : DigitsNet) (b : Batch) (h : b.2 = []) :
    LitGenericClassifier.training_step b = none ∧
    LitGenericClassifier.validation_step b = none ∧
    LitGenericClassifier.test_step b = none ∧
    LitSimpleClassifier.training_step n b = none ∧
    LitSimpleClassifier.validation_step n b = none ∧
    LitSimpleClassifier.test_step n b = none ∧
    LitDigitsClassifier.training_step m b = none ∧
    LitDigitsClassifier.validation_step m b = none ∧
    LitDigitsClassifier.test_step m b = none := by
  have key : ∀ (f : List ℚ → List ℚ) (x : Mat), step_core f x b.2 = none := by
    intro f x
    simp [step_core, accuracy, h]
  have keyG : ∀ o : Option Mat,
      o.bind (fun xc => Option.map Prod.fst (step_core id xc b.2)) = none ∧
      o.bind (fun xc => step_core id xc b.2) = none := by
    intro o
    cases o <;> simp [key]
  refine ⟨(keyG _).1, (keyG _).2, (keyG _).2, ?_, ?_, ?_, ?_, ?_, ?_⟩ <;>
    simp [LitSimpleClassifier.training_step,
      LitSimpleClassifier.validation_step, LitSimpleClassifier.test_step,
      LitDigitsClassifier.training_step, LitDigitsClassifier.validation_step,
      LitDigitsClassifier.test_step, key]

theorem C8_empty_batch_witness :
    (([], []) : Batch).2 = [] ∧
    (LitGenericClassifier.training_step ([], []) = none ∧
     LitGenericClassifier.validation_step ([], []) = none ∧
     LitGenericClassifier.test_step ([], []) = none ∧
     LitSimpleClassifier.training_step simpleNet0 ([], []) = none ∧
     LitSimpleClassifier.validation_step simpleNet0 ([], []) = none ∧
     LitSimpleClassifier.test_step simpleNet0 ([], []) = none ∧
     LitDigitsClassifier.training_step digitsNet0 ([], []) = none ∧
     LitDigitsClassifier.validation_step digitsNet0 ([], []) = none ∧
     LitDigitsClassifier.test_step digitsNet0 ([], []) = none) :=
  ⟨rfl, C8_empty_batch simpleNet0 digitsNet0 ([], []) rfl⟩

/-- Claim C1 (amended): for the simple and digits variants — whose
transform_input creates no in-place mutation — every step function's value
is numerically identical to the value obtained when the call to
transform_input is omitted entirely, because the reassignment `x, y = batch`
discards the transform's returned value.  (For the generic base class the
in-place outlier clip survives the discard, so the values can differ; see
the counterexample.) -/
theorem C1_variant_steps_unaffected (n : SimpleNet) (m : DigitsNet) (b : Batch) :
    LitSimpleClassifier.training_step n b = training_step_no_transform n.forwardRow b ∧
    LitSimpleClassifier.validation_step n b = validation_step_no_transform n.forwardRow b ∧
    LitSimpleClassifier.test_step n b = test_step_no_transform n.forwardRow b ∧
    LitDigitsClassifier.training_step m b = training_step_no_transform m.forwardRow b ∧
    LitDigitsClassifier.validation_step m b = validation_step_no_transform m.forwardRow b ∧
    LitDigitsClassifier.test_step m b = test_step_no_transform m.forwardRow b :=
  ⟨rfl, rfl, rfl, rfl, rfl, rfl⟩

/-- Claim C1 is false for the generic base class: on this batch the
in-place outlier clip changes the accuracy computed by validation_step, so
the result differs from the computation with transform_input omitted. -/
theorem C1_counterexample :
    LitGenericClassifier.validation_step ([[1, 2], [10, 5], [1, 30]], [1, 0, 1]) ≠
      validation_step_no_transform id ([[1, 2], [10, 5], [1, 30]], [1, 0, 1]) := by
  intro h
  have h2 := congrArg (Option.map Prod.snd) h
  simp only [LitGenericClassifier.validation_step, validation_step_no_transform] at h2
  rw [show LitGenericClassifier.batch_after_transform ([[1, 2], [10, 5], [1, 30]], [1, 0, 1])
        = some [[1, 2], [1, 5], [1, 5]] from by
      norm_num [LitGenericClassifier.batch_after_transform, masked_fill, numCols,
        numOutliers, assignRows, assignRow, medianQ, sortQ, insertSorted, colOf]] at h2
  simp only [Option.some_bind, step_core_map_snd] at h2
  rw [show List.map argmax (forward id [[1, 2], [1, 5], [1, 5]]) = [1, 1, 1] from by
      norm_num [forward, argmax_pair]] at h2
  rw [show List.map argmax (forward id [[1, 2], [10, 5], [1, 30]]) = [1, 0, 1] from by
      norm_num [forward, argmax_pair]] at h2
  rw [show accuracy [1, 1, 1] [1, 0, 1] = some (2/3) from by
      norm_num [accuracy, countMatches]] at h2
  rw [show accuracy [1, 0, 1] [1, 0, 1] = some 1 from by
      norm_num [accuracy, countMatches]] at h2
  exact absurd (Option.some_injective ℚ h2) (by norm_num)

/-- Claim C6: predict returns one integer label per feature row, the i-th
entry being the arg-max of the i-th row of the model's logits (with no
preprocessing applied to the features), and every predicted label lies
below the class count: 4 for the simple variant, 10 for the digits
variant. -/
theorem C6_predict_argmax (n : SimpleNet) (m : DigitsNet) (hn : n.wf) (hm : m.wf)
    (x z : Mat) :
    ((LitGenericClassifier.predict n.forwardRow x).length = x.length ∧
     ∀ i, i < x.length →
       (LitGenericClassifier.predict n.forwardRow x).getD i 0 =
         argmax ((forward n.forwardRow x).getD i []) ∧
       (LitGenericClassifier.predict n.forwardRow x).getD i 0 < 4) ∧
    ((LitGenericClassifier.predict m.forwardRow z).length = z.length ∧
     ∀ i, i < z.length →
       (LitGenericClassifier.predict m.forwardRow z).getD i 0 =
         argmax ((forward m.forwardRow z).getD i []) ∧
       (LitGenericClassifier.predict m.forwardRow z).getD i 0 < 10) :=
  ⟨predict_spec n.forwardRow 4 (by norm_num) (fun r => simple_forwardRow_length hn r) x,
   predict_spec m.forwardRow 10 (by norm_num) (fun r => digits_forwardRow_length hm r) z⟩

theorem C6_predict_argmax_witness :
    simpleNet0.wf ∧ digitsNet0.wf ∧
    (((LitGenericClassifier.predict simpleNet0.forwardRow [[1, 2]]).length =
        ([[1, 2]] : Mat).length ∧
      ∀ i, i < ([[1, 2]] : Mat).length →
        (LitGenericClassifier.predict simpleNet0.forwardRow [[1, 2]]).getD i 0 =
          argmax ((forward simpleNet0.forwardRow [[1, 2]]).getD i []) ∧
        (LitGenericClassifier.predict simpleNet0.forwardRow [[1, 2]]).getD i 0 < 4) ∧
     ((LitGenericClassifier.predict digitsNet0.forwardRow [[3]]).length =
        ([[3]] : Mat).length ∧
      ∀ i, i < ([[3]] : Mat).length →
        (LitGenericClassifier.predict digitsNet0.forwardRow [[3]]).getD i 0 =
          argmax ((forward digitsNet0.forwardRow [[3]]).getD i []) ∧
        (LitGenericClassifier.predict digitsNet0.forwardRow [[3]]).getD i 0 < 10)) :=
  ⟨simpleNet0_wf, digitsNet0_wf,
   C6_predict_argmax simpleNet0 digitsNet0 simpleNet0_wf digitsNet0_wf [[1, 2]] [[3]]⟩

/-- Claim C7: whenever a step body returns a value, its accuracy lies in
[0, 1], and it equals exactly 1 when the predicted labels match the given
labels on every instance. -/
theorem C7_accuracy_bounds (f : List ℚ → List ℚ) (x : Mat) (y : Labels) (l : ℝ) (a : ℚ)
    (h : step_core f x y = some (l, a)) :
    0 ≤ a ∧ a ≤ 1 ∧ (((forward f x).map argmax).map Int.ofNat = y → a = 1) := by
  have hs := step_core_map_snd f x y
  rw [h] at hs
  simp only [Option.map_some'] at hs
  unfold accuracy at hs
  by_cases h0 : y.length = 0
  · rw [if_pos h0] at hs
    simp at hs
  · rw [if_neg h0] at hs
    have ha : a = (countMatches ((forward f x).map argmax) y : ℚ) / (y.length : ℚ) :=
      Option.some_injective ℚ hs
    have hlen : (0 : ℚ) < (y.length : ℚ) := by
      exact_mod_cast Nat.pos_of_ne_zero h0
    refine ⟨?_, ?_, ?_⟩
    · rw [ha]
      positivity
    · rw [ha, div_le_one hlen]
      exact_mod_cast countMatches_le_length _ y
    · intro hmatch
      rw [ha, countMatches_eq_length hmatch, div_self (ne_of_gt hlen)]

theorem C7_accuracy_bounds_witness :
    step_core id [[1, 2]] [1] = some (cross_entropy (forward id [[1, 2]]) [1], 1) ∧
    (0 ≤ (1 : ℚ) ∧ (1 : ℚ) ≤ 1 ∧
      (((forward id [[1, 2]]).map argmax).map Int.ofNat = [1] → (1 : ℚ) = 1)) := by
  have hacc : accuracy (List.map argmax (forward id [[1, 2]])) [1] = some 1 := by
    norm_num [forward, argmax_pair, accuracy, countMatches]
  have hstep : step_core id [[1, 2]] [1] =
      some (cross_entropy (forward id [[1, 2]]) [1], 1) := by
    simp only [step_core]
    rw [hacc]
  exact ⟨hstep, C7_accuracy_bounds id [[1, 2]] [1] _ 1 hstep⟩

/-- Claim C10 is false as stated: in this single-column batch (where the
masked assignment is well-formed) the single entry is classified as an
outlier (its value −1 equals the negative column median, and 0 > 4·(−1)),
yet writing the median over it leaves the caller's feature tensor
unchanged. -/
theorem C10_counterexample :
    is_outlier [[-1]] 0 0 ∧
    LitGenericClassifier.batch_after_transform ([[-1]], [0]) = some [[-1]] := by
  constructor
  · show 4 * medianQ (colOf [[-1]] 0) < _ - medianQ (colOf [[-1]] 0)
    norm_num [medianQ, sortQ, insertSorted, colOf]
  · norm_num [LitGenericClassifier.batch_after_transform, masked_fill, numCols, clip,
      medianQ, sortQ, insertSorted, colOf, mapColsFrom]

/-- Claim C10 (amended): for a single-column batch the generic
transform_input mutates the caller's feature tensor in place: whenever the
entry of some row is classified as an outlier and its value differs from
the column median, the caller's batch is changed even though the
transform's returned value is discarded, and the step functions compute on
the mutated tensor rather than the original.  (For multi-column batches
the masked assignment instead raises a shape-mismatch error unless the
outlier count equals the column count; see `masked_fill`.) -/
theorem C10_inplace_mutation (x : Mat) (y : Labels) (i : ℕ)
    (hrect : ∀ r ∈ x, r.length = 1) (hx : x ≠ []) (hi : i < x.length)
    (ho : is_outlier x i 0)
    (hne : (x.getD i []).getD 0 0 ≠ medianQ (colOf x 0)) :
    LitGenericClassifier.batch_after_transform (x, y) = some (clip x) ∧
    clip x ≠ x ∧
    LitGenericClassifier.validation_step (x, y) = step_core id (clip x) y := by
  have hbat : LitGenericClassifier.batch_after_transform (x, y) = some (clip x) :=
    masked_fill_single_col hrect hx
  refine ⟨hbat, ?_, ?_⟩
  · intro h
    have hent := congrArg (fun m => (m.getD i []).getD 0 0) h
    simp only at hent
    have hrow : x.getD i [] ∈ x := by
      rw [List.getD_eq_getElem x [] hi]
      exact List.getElem_mem hi
    have hj : 0 < (x.getD i []).length := by
      rw [hrect _ hrow]
      norm_num
    have ho' : 4 * medianQ (colOf x 0) < (x.getD i []).getD 0 0 - medianQ (colOf x 0) := ho
    rw [clip_entry x i 0 hi hj, if_pos ho'] at hent
    exact hne hent.symm
  · simp [LitGenericClassifier.validation_step, hbat]

theorem C10_inplace_mutation_witness :
    ((∀ r ∈ ([[1], [10], [1]] : Mat), r.length = 1) ∧
     ([[1], [10], [1]] : Mat) ≠ [] ∧
     1 < ([[1], [10], [1]] : Mat).length ∧
     is_outlier [[1], [10], [1]] 1 0 ∧
     (([[1], [10], [1]] : Mat).getD 1 []).getD 0 0 ≠ medianQ (colOf [[1], [10], [1]] 0)) ∧
    (LitGenericClassifier.batch_after_transform ([[1], [10], [1]], [0, 0, 0]) =
        some (clip [[1], [10], [1]]) ∧
     clip [[1], [10], [1]] ≠ [[1], [10], [1]] ∧
     LitGenericClassifier.validation_step ([[1], [10], [1]], [0, 0, 0]) =
       step_core id (clip [[1], [10], [1]]) [0, 0, 0]) := by
  have ho : is_outlier [[1], [10], [1]] 1 0 := by
    show 4 * medianQ (colOf [[1], [10], [1]] 0) < _ - medianQ (colOf [[1], [10], [1]] 0)
    norm_num [medianQ, sortQ, insertSorted, colOf]
  have hne : (([[1], [10], [1]] : Mat).getD 1 []).getD 0 0 ≠
      medianQ (colOf [[1], [10], [1]] 0) := by
    norm_num [medianQ, sortQ, insertSorted, colOf]
  exact ⟨⟨by decide, by decide, by norm_num, ho, hne⟩,
    C10_inplace_mutation [[1], [10], [1]] [0, 0, 0] 1 (by decide) (by decide)
      (by norm_num) ho hne⟩

/-- Claim C2 (amended): for a single-column batch — where the masked
assignment is well-formed and each outlier receives its column median —
the generic transform_input clips one-sidedly: the entry is replaced
exactly when entry − median exceeds 4 × median, so values far below the
median are never replaced; it then standardizes the clipped column by its
mean and Bessel-corrected standard deviation and returns the labels
coerced to integer type with values unchanged.  (For multi-column batches
the masked assignment raises unless the outlier count equals the column
count, and then assigns medians positionally; see `masked_fill`.) -/
theorem C2_generic_transform (x : Mat) (y : Labels) (i : ℕ)
    (hrect : ∀ r ∈ x, r.length = 1) (hx : x ≠ []) (hi : i < x.length) :
    LitGenericClassifier.transform_input (x, y) =
      some ((standardize_cols (clip x), y), clip x) ∧
    (((standardize_cols (clip x)).getD i []).getD 0 0 =
      ((((if 4 * medianQ (colOf x 0) < (x.getD i []).getD 0 0 - medianQ (colOf x 0)
           then medianQ (colOf x 0) else (x.getD i []).getD 0 0) : ℚ) : ℝ) -
         ((meanQ (colOf (clip x) 0) : ℚ) : ℝ)) /
        Real.sqrt ((varQ (colOf (clip x) 0) : ℚ) : ℝ)) := by
  have hmf : masked_fill x = some (clip x) := masked_fill_single_col hrect hx
  constructor
  · simp [LitGenericClassifier.transform_input, hmf]
  · have hrow : x.getD i [] ∈ x := by
      rw [List.getD_eq_getElem x [] hi]
      exact List.getElem_mem hi
    have hj : 0 < (x.getD i []).length := by
      rw [hrect _ hrow]
      norm_num
    have hi2 : i < (clip x).length := by rw [clip_length]; exact hi
    have hj2 : 0 < ((clip x).getD i []).length := by rw [clip_row_length x i hi]; exact hj
    rw [standardize_cols_entry (clip x) i 0 hi2 hj2, clip_entry x i 0 hi hj]

theorem C2_generic_transform_witness :
    ((∀ r ∈ ([[1], [2]] : Mat), r.length = 1) ∧ ([[1], [2]] : Mat) ≠ [] ∧
     0 < ([[1], [2]] : Mat).length) ∧
    (LitGenericClassifier.transform_input ([[1], [2]], [7]) =
       some ((standardize_cols (clip [[1], [2]]), [7]), clip [[1], [2]]) ∧
     (((standardize_cols (clip [[1], [2]])).getD 0 []).getD 0 0 =
       ((((if 4 * medianQ (colOf [[1], [2]] 0) <
             (([[1], [2]] : Mat).getD 0 []).getD 0 0 - medianQ (colOf [[1], [2]] 0)
            then medianQ (colOf [[1], [2]] 0)
            else (([[1], [2]] : Mat).getD 0 []).getD 0 0) : ℚ) : ℝ) -
          ((meanQ (colOf (clip [[1], [2]]) 0) : ℚ) : ℝ)) /
         Real.sqrt ((varQ (colOf (clip [[1], [2]]) 0) : ℚ) : ℝ))) :=
  ⟨⟨by decide, by decide, by norm_num⟩,
   C2_generic_transform [[1], [2]] [7] 0 (by decide) (by decide) (by norm_num)⟩

/-- Claim C2 is false as stated: on this single-column batch (where the
masked assignment is well-formed and broadcasts) the value −100 lies far
below the median 10 (deviation 110 > 4 × 10), so a transform that clips on
either side of the median would replace it, changing the column
statistics; the code's one-sided test replaces nothing, and the two
standardized outputs differ already in their first entry (positive versus
negative). -/
theorem C2_counterexample :
    (LitGenericClassifier.transform_input
        ([[10], [10], [12], [14], [-100]], [0, 0, 0, 0, 0])).map Prod.fst ≠
      some (spec_transform_either_side
        ([[10], [10], [12], [14], [-100]], [0, 0, 0, 0, 0])) := by
  intro h
  have hmf : masked_fill [[10], [10], [12], [14], [-100]] =
      some [[10], [10], [12], [14], [-100]] := by
    norm_num [masked_fill, numCols, clip, medianQ, sortQ, insertSorted, colOf, mapColsFrom]
  rw [show LitGenericClassifier.transform_input
        ([[10], [10], [12], [14], [-100]], [0, 0, 0, 0, 0]) =
      some ((standardize_cols [[10], [10], [12], [14], [-100]], [0, 0, 0, 0, 0]),
        [[10], [10], [12], [14], [-100]]) from by
    simp [LitGenericClassifier.transform_input, hmf]] at h
  simp only [Option.map_some'] at h
  have h1 := Option.some_injective _ h
  simp only [spec_transform_either_side] at h1
  have h2 := congrArg (fun p => (p.1.getD 0 []).getD 0 0) h1
  simp only at h2
  rw [show spec_clip_either_side [[10], [10], [12], [14], [-100]] =
        [[10], [10], [12], [14], [10]] from by
      norm_num [spec_clip_either_side, medianQ, sortQ, insertSorted, colOf, mapColsFrom]] at h2
  rw [standardize_cols_entry [[10], [10], [12], [14], [-100]] 0 0 (by norm_num) (by norm_num),
    standardize_cols_entry [[10], [10], [12], [14], [10]] 0 0 (by norm_num) (by norm_num)]
    at h2
  rw [show meanQ (colOf [[10], [10], [12], [14], [-100]] 0) = -54/5 from by
      norm_num [meanQ, colOf]] at h2
  rw [show varQ (colOf [[10], [10], [12], [14], [-100]] 0) = 12446/5 from by
      norm_num [varQ, meanQ, colOf]] at h2
  rw [show meanQ (colOf [[10], [10], [12], [14], [10]] 0) = 56/5 from by
      norm_num [meanQ, colOf]] at h2
  rw [show varQ (colOf [[10], [10], [12], [14], [10]] 0) = 16/5 from by
      norm_num [varQ, meanQ, colOf]] at h2
  rw [show (([[10], [10], [12], [14], [-100]] : Mat).getD 0 []).getD 0 0 = 10 from rfl,
    show (([[10], [10], [12], [14], [10]] : Mat).getD 0 []).getD 0 0 = 10 from rfl] at h2
  exact pos_div_sqrt_ne_neg_div_sqrt
    (by push_cast; norm_num) (by push_cast; norm_num)
    (by push_cast; norm_num) (by push_cast; norm_num) h2

/-- Claim C3: the digits variant's transform_input standardizes every entry
by the single global mean and global (Bessel-corrected) standard deviation
of the whole feature tensor — the same pair of statistics for every column
— and returns the labels coerced to integer type with every value
unchanged; the caller's feature tensor is not mutated. -/
theorem C3_digits_transform (x : Mat) (y : Labels) (i j : ℕ)
    (hi : i < x.length) (hj : j < (x.getD i []).length) :
    (LitDigitsClassifier.transform_input (x, y)).1.2 = y ∧
    (LitDigitsClassifier.transform_input (x, y)).2 = x ∧
    (((LitDigitsClassifier.transform_input (x, y)).1.1.getD i []).getD j 0 =
      ((((x.getD i []).getD j 0 : ℚ) : ℝ) - ((meanQ x.flatten : ℚ) : ℝ)) /
        Real.sqrt ((varQ x.flatten : ℚ) : ℝ)) := by
  refine ⟨rfl, rfl, ?_⟩
  show ((x.map (List.map (fun v : ℚ =>
      ((v : ℝ) - ((meanQ x.flatten : ℚ) : ℝ)) / Real.sqrt ((varQ x.flatten : ℚ) : ℝ)))).getD
      i []).getD j 0 = _
  rw [getD_map_rows _ x i hi, getD_map_val _ _ _ j hj]

theorem C3_digits_transform_witness :
    (0 < ([[1, 2]] : Mat).length ∧ 1 < (([[1, 2]] : Mat).getD 0 []).length) ∧
    ((LitDigitsClassifier.transform_input ([[1, 2]], [3])).1.2 = [3] ∧
     (LitDigitsClassifier.transform_input ([[1, 2]], [3])).2 = [[1, 2]] ∧
     (((LitDigitsClassifier.transform_input ([[1, 2]], [3])).1.1.getD 0 []).getD 1 0 =
       ((((([[1, 2]] : Mat).getD 0 []).getD 1 0 : ℚ) : ℝ) -
           ((meanQ ([[1, 2]] : Mat).flatten : ℚ) : ℝ)) /
         Real.sqrt ((varQ ([[1, 2]] : Mat).flatten : ℚ) : ℝ))) :=
  ⟨⟨by norm_num, by norm_num⟩,
   C3_digits_transform [[1, 2]] [3] 0 1 (by norm_num) (by norm_num)⟩

/-- Claim C9: for every well-formed batch (non-empty, labels valid class
indices), the cross-entropy loss returned by the step functions of both
variants is a non-negative scalar; in this exact-arithmetic embedding every
such loss is a well-defined (finite) real number. -/
theorem C9_loss_nonneg (n : SimpleNet) (m : DigitsNet) (hn : n.wf) (hm : m.wf)
    (b c : Batch) (hb : b.2 ≠ []) (hc : c.2 ≠ [])
    (hvb : ∀ t ∈ b.2, t.toNat < 4) (hvc : ∀ t ∈ c.2, t.toNat < 10) :
    (∃ l, LitSimpleClassifier.training_step n b = some l ∧ 0 ≤ l) ∧
    (∃ l, LitDigitsClassifier.training_step m c = some l ∧ 0 ≤ l) := by
  obtain ⟨l1, a1, heq1, hl1⟩ :=
    step_core_some_loss n.forwardRow 4 b.1 b.2
      (fun r => simple_forwardRow_length hn r) hb hvb
  obtain ⟨l2, a2, heq2, hl2⟩ :=
    step_core_some_loss m.forwardRow 10 c.1 c.2
      (fun r => digits_forwardRow_length hm r) hc hvc
  constructor
  · refine ⟨l1, ?_, hl1⟩
    simp only [LitSimpleClassifier.training_step, LitSimpleClassifier.batch_after_transform]
    rw [heq1]
    rfl
  · refine ⟨l2, ?_, hl2⟩
    simp only [LitDigitsClassifier.training_step, LitDigitsClassifier.batch_after_transform]
    rw [heq2]
    rfl

theorem C9_loss_nonneg_witness :
    (simpleNet0.wf ∧ digitsNet0.wf ∧
     ([0] : Labels) ≠ [] ∧ ([9] : Labels) ≠ [] ∧
     (∀ t ∈ ([0] : Labels), t.toNat < 4) ∧ (∀ t ∈ ([9] : Labels), t.toNat < 10)) ∧
    ((∃ l, LitSimpleClassifier.training_step simpleNet0 ([[1, 2]], [0]) = some l ∧ 0 ≤ l) ∧
     (∃ l, LitDigitsClassifier.training_step digitsNet0 ([[3]], [9]) = some l ∧ 0 ≤ l)) :=
  ⟨⟨simpleNet0_wf, digitsNet0_wf, by decide, by decide, by decide, by decide⟩,
   C9_loss_nonneg simpleNet0 digitsNet0 simpleNet0_wf digitsNet0_wf
     ([[1, 2]], [0]) ([[3]], [9]) (by decide) (by decide) (by decide) (by decide)⟩

end FFNN
